import Mathlib

/-!
Verification of the recipe serializer layer (`app/recipe/serializers.py`)
of the recipe-app-api repository.

The Django ORM state is embedded shallowly: a `DB` record holds the rows of
the `Tag`, `Ingredient` and `Recipe` tables together with fresh-id counters.
Many-to-many association sets are lists of row ids on the recipe row, with
set-semantics insertion (`m2mAdd`).  The serializer methods
`RecipeSerializer.create`, `RecipeSerializer.update`,
`RecipeSerializer._get_or_create_tags` and
`RecipeSerializer._get_or_create_ingredients` become Lean functions that
thread the `DB` state explicitly.  Users are identified by numeric ids;
`Decimal` prices carry no arithmetic in the code and are embedded as their
literal strings.
-/

/-- A row of the `Tag` table: id, owning user, name. -/
structure Tag where
  id : Nat
  user : Nat
  name : String
deriving DecidableEq, Repr

/-- A row of the `Ingredient` table: same shape as `Tag`. -/
structure Ingredient where
  id : Nat
  user : Nat
  name : String
deriving DecidableEq, Repr

/-- A row of the `Recipe` table.  `tags` and `ingredients` hold the ids of
the associated `Tag` / `Ingredient` rows (the many-to-many link tables). -/
structure Recipe where
  id : Nat
  user : Nat
  title : String
  time_minutes : Nat
  price : String
  link : String
  description : String
  tags : List Nat
  ingredients : List Nat
deriving DecidableEq, Repr

/-- The database: the three tables plus fresh-id counters. -/
structure DB where
  tags : List Tag
  ingredients : List Ingredient
  recipes : List Recipe
  nextTagId : Nat
  nextIngredientId : Nat
  nextRecipeId : Nat
deriving DecidableEq, Repr

/-- Validated serializer payload (`validated_data`).  Each field of
`RecipeSerializer.Meta.fields` (plus `description` from the detail
serializer) is optional: `none` means the key is absent from the payload,
as in a partial update.  Nested tag / ingredient entries are `{name: ...}`
pairs, so a list entry is just the name string. -/
structure RecipePayload where
  title : Option String
  time_minutes : Option Nat
  price : Option String
  link : Option String
  description : Option String
  tags : Option (List String)
  ingredients : Option (List String)
deriving DecidableEq, Repr

/-- A raw client payload before serializer validation: like
`RecipePayload` but it may also carry a `user` key. -/
structure RawRecipePayload where
  title : Option String
  time_minutes : Option Nat
  price : Option String
  link : Option String
  description : Option String
  tags : Option (List String)
  ingredients : Option (List String)
  user : Option Nat
deriving DecidableEq, Repr

/-- Serializer validation: `RecipeSerializer.Meta.fields` lists
`id, title, time_minutes, price, link, tags, ingredients` (plus
`description` on the detail serializer) and not `user`, so a `user` key in
the incoming payload is discarded and never reaches `validated_data`. -/
def toValidated (raw : RawRecipePayload) : RecipePayload :=
  { title := raw.title
    time_minutes := raw.time_minutes
    price := raw.price
    link := raw.link
    description := raw.description
    tags := raw.tags
    ingredients := raw.ingredients }

/-- Many-to-many `add`: inserting an id already linked is a no-op. -/
def m2mAdd (l : List Nat) (x : Nat) : List Nat :=
  if x ∈ l then l else l ++ [x]

/-- Row predicate used by `Tag.objects.get_or_create(user=..., name=...)`. -/
def tagMatch (u : Nat) (n : String) (t : Tag) : Bool :=
  t.user == u && t.name == n

/-- Row predicate used by
`Ingredient.objects.get_or_create(user=..., name=...)`. -/
def ingredientMatch (u : Nat) (n : String) (i : Ingredient) : Bool :=
  i.user == u && i.name == n

/-- `Tag.objects.get_or_create(user=auth_user, name=name)`: return the
first existing row matching user and name, or append a fresh row. -/
def tagGetOrCreate (db : DB) (u : Nat) (n : String) : Tag × DB :=
  match db.tags.find? (tagMatch u n) with
  | some t => (t, db)
  | none =>
      let t : Tag := ⟨db.nextTagId, u, n⟩
      (t, { db with tags := db.tags ++ [t], nextTagId := db.nextTagId + 1 })

/-- `Ingredient.objects.get_or_create(user=auth_user, name=name)`. -/
def ingredientGetOrCreate (db : DB) (u : Nat) (n : String) :
    Ingredient × DB :=
  match db.ingredients.find? (ingredientMatch u n) with
  | some i => (i, db)
  | none =>
      let i : Ingredient := ⟨db.nextIngredientId, u, n⟩
      (i, { db with ingredients := db.ingredients ++ [i],
                    nextIngredientId := db.nextIngredientId + 1 })

/-- `RecipeSerializer._get_or_create_tags`: for each nested entry,
get-or-create the tag scoped to the authenticated user `u` and add its id
to the association list `acc`.  Returns the final association list and the
updated database. -/
def getOrCreateTags (u : Nat) : List String → List Nat → DB → List Nat × DB
  | [], acc, db => (acc, db)
  | n :: ns, acc, db =>
      let p := tagGetOrCreate db u n
      getOrCreateTags u ns (m2mAdd acc p.1.id) p.2

/-- `RecipeSerializer._get_or_create_ingredients`. -/
def getOrCreateIngredients (u : Nat) :
    List String → List Nat → DB → List Nat × DB
  | [], acc, db => (acc, db)
  | n :: ns, acc, db =>
      let p := ingredientGetOrCreate db u n
      getOrCreateIngredients u ns (m2mAdd acc p.1.id) p.2

/-- `instance.save()`: write the recipe row back into the table. -/
def saveRecipe (r : Recipe) (db : DB) : DB :=
  { db with recipes := db.recipes.map (fun x => if x.id == r.id then r else x) }

/-- `RecipeSerializer.update(instance, validated_data)`: pop `tags` and
`ingredients`; when a popped value is present (`some`, even the empty
list) clear the association list and rebuild it by get-or-create; then
`setattr` each remaining scalar key and save.  `u` is the authenticated
request user from the serializer context. -/
def update (u : Nat) (r : Recipe) (p : RecipePayload) (db : DB) :
    Recipe × DB :=
  let tres : List Nat × DB :=
    match p.tags with
    | none => (r.tags, db)
    | some ns => getOrCreateTags u ns [] db
  let ires : List Nat × DB :=
    match p.ingredients with
    | none => (r.ingredients, tres.2)
    | some ns => getOrCreateIngredients u ns [] tres.2
  let r' : Recipe :=
    { r with
      title := p.title.getD r.title
      time_minutes := p.time_minutes.getD r.time_minutes
      price := p.price.getD r.price
      link := p.link.getD r.link
      description := p.description.getD r.description
      tags := tres.1
      ingredients := ires.1 }
  (r', saveRecipe r' ires.2)

/-- `RecipeSerializer.create(validated_data)`: pop `tags` and
`ingredients` with default `[]`, create the recipe row, then get-or-create
and associate each nested entry.  The owning user is `u`, the
authenticated request user: the viewset's `perform_create` (modelled from
the spec, the view module is not among the shown files) injects
`user=self.request.user` into the saved data.  `createdRecipe` is the
fresh row produced by `Recipe.objects.create(**validated_data)`, with
empty association lists. -/
def createdRecipe (u : Nat) (p : RecipePayload) (db : DB) : Recipe :=
  { id := db.nextRecipeId
    user := u
    title := p.title.getD ""
    time_minutes := p.time_minutes.getD 0
    price := p.price.getD ""
    link := p.link.getD ""
    description := p.description.getD ""
    tags := []
    ingredients := [] }

/-- The database right after `Recipe.objects.create(**validated_data)`,
before the nested tag / ingredient loops run. -/
def createDB0 (u : Nat) (p : RecipePayload) (db : DB) : DB :=
  { db with recipes := db.recipes ++ [createdRecipe u p db],
            nextRecipeId := db.nextRecipeId + 1 }

def create (u : Nat) (p : RecipePayload) (db : DB) : Recipe × DB :=
  let db0 := createDB0 u p db
  let tres := getOrCreateTags u (p.tags.getD []) [] db0
  let ires := getOrCreateIngredients u (p.ingredients.getD []) [] tres.2
  let r : Recipe := { createdRecipe u p db with tags := tres.1, ingredients := ires.1 }
  (r, saveRecipe r ires.2)

/-- Modelled from the spec: the recipe viewset's `get_object` (the view
module is not among the shown files).  The queryset is filtered to the
requesting user's own recipes, so a lookup by id only sees rows owned by
the requester; a miss surfaces as a not-found response. -/
def get_object (db : DB) (u : Nat) (rid : Nat) : Option Recipe :=
  (db.recipes.filter (fun r => r.user == u)).find? (fun r => r.id == rid)

/-- Modelled from the spec: the retrieve endpoint.  `none` stands for the
not-found response; the database is never written. -/
def retrieveRecipe (u : Nat) (rid : Nat) (db : DB) : Option Recipe × DB :=
  (get_object db u rid, db)

/-- Modelled from the spec: the destroy endpoint.  `false` stands for the
not-found response, in which case the database is untouched; on success
the recipe row is deleted. -/
def destroyRecipe (u : Nat) (rid : Nat) (db : DB) : Bool × DB :=
  match get_object db u rid with
  | none => (false, db)
  | some r =>
      (true, { db with recipes := db.recipes.filter (fun x => !(x.id == r.id)) })

/-- Modelled from the spec: the update / partial-update endpoint.  The
instance is looked up through the user-scoped `get_object`; a miss is the
not-found response and leaves the database untouched, a hit runs
`RecipeSerializer.update`. -/
def updateRecipe (u : Nat) (rid : Nat) (p : RecipePayload) (db : DB) :
    Bool × DB :=
  match get_object db u rid with
  | none => (false, db)
  | some r => (true, (update u r p db).2)

/-- Concrete sample recipe used by witness statements. -/
def rSample : Recipe :=
  ⟨1, 0, "Sample Recipe", 22, "5.25", "https://example.com/recipe.pdf",
   "Sample recipe description", [], []⟩

/-- Concrete sample database used by witness statements. -/
def dbSample : DB := ⟨[], [], [rSample], 0, 0, 2⟩

/-- Concrete sample payload: patches the tag list only. -/
def pSample : RecipePayload :=
  ⟨none, none, none, none, none, some ["Lunch"], none⟩

/-- Concrete sample payload: patches the title only. -/
def pScalar : RecipePayload :=
  ⟨some "New recipe title", none, none, none, none, none, none⟩

/-- Concrete sample payload with nested tag and ingredient entries. -/
def pNested : RecipePayload :=
  ⟨some "Thai Prawn Curry", some 30, some "2.50", none,
   some "Sample recipe description", some ["Thai", "Dinner"],
   some ["Prawns", "Curry"]⟩

/-- Concrete sample database holding one tag and one ingredient row. -/
def dbRows : DB := ⟨[⟨0, 0, "Breakfast"⟩], [⟨0, 0, "Salt"⟩], [rSample], 1, 1, 2⟩

/-- Concrete recipe owned by user 1 at id 3. -/
def rOther : Recipe := ⟨3, 1, "Other", 5, "1.00", "", "", [], []⟩

/-- Concrete sample database holding only `rOther`. -/
def dbOther : DB := ⟨[], [], [rOther], 0, 0, 4⟩

/-- A recipe row whose association ids all resolve to rows of the
database owned by the recipe's own user. -/
def ownedAssoc (db : DB) (r : Recipe) : Prop :=
  (∀ x ∈ r.tags, ∃ t ∈ db.tags, t.id = x ∧ t.user = r.user) ∧
  (∀ x ∈ r.ingredients, ∃ i ∈ db.ingredients, i.id = x ∧ i.user = r.user)

/-- The ownership invariant: every recipe row of the database only
references tag / ingredient rows owned by its own user. -/
def dbInv (db : DB) : Prop := ∀ r ∈ db.recipes, ownedAssoc db r

instance (db : DB) (r : Recipe) : Decidable (ownedAssoc db r) := by
  unfold ownedAssoc; infer_instance

instance (db : DB) : Decidable (dbInv db) := by
  unfold dbInv; infer_instance

/-- Empty concrete database. -/
def dbEmpty : DB := ⟨[], [], [], 0, 0, 0⟩

/-- Concrete payload whose tag list repeats one name. -/
def pDupTags : RecipePayload :=
  ⟨some "Pongal", some 60, some "4.50", none, none, some ["A", "A"], none⟩

/-- Concrete payload with two distinct fresh tag names. -/
def pTwoTags : RecipePayload :=
  ⟨some "Thai Prawn Curry", some 30, some "2.50", none, none,
   some ["Thai", "Dinner"], none⟩

/-- Concrete database holding one pre-existing tag row named Indian. -/
def dbIndian : DB := ⟨[⟨0, 0, "Indian"⟩], [], [], 1, 0, 0⟩

/-- Concrete payload mixing the existing name with a fresh one. -/
def pMixTags : RecipePayload :=
  ⟨some "Pongal", some 60, some "4.50", none, none,
   some ["Indian", "Breakfast"], none⟩

/-! ### Basic lemmas about the embedded operations -/

theorem mem_m2mAdd_self (l : List Nat) (x : Nat) : x ∈ m2mAdd l x := by
  unfold m2mAdd
  by_cases h : x ∈ l <;> simp [h]

theorem mem_m2mAdd_of_mem {l : List Nat} {y : Nat} (x : Nat) (h : y ∈ l) :
    y ∈ m2mAdd l x := by
  unfold m2mAdd
  by_cases hx : x ∈ l <;> simp [hx, h]

theorem mem_of_mem_m2mAdd {l : List Nat} {x y : Nat} (h : y ∈ m2mAdd l x) :
    y ∈ l ∨ y = x := by
  unfold m2mAdd at h
  by_cases hx : x ∈ l <;> simp [hx] at h
  · exact Or.inl h
  · exact h

theorem tagGetOrCreate_fst_user (db : DB) (u : Nat) (n : String) :
    (tagGetOrCreate db u n).1.user = u := by
  unfold tagGetOrCreate
  cases hf : db.tags.find? (tagMatch u n) with
  | none => simp
  | some t =>
      have := List.find?_some hf
      simp only [tagMatch, Bool.and_eq_true, beq_iff_eq] at this
      simpa using this.1

theorem tagGetOrCreate_fst_name (db : DB) (u : Nat) (n : String) :
    (tagGetOrCreate db u n).1.name = n := by
  unfold tagGetOrCreate
  cases hf : db.tags.find? (tagMatch u n) with
  | none => simp
  | some t =>
      have := List.find?_some hf
      simp only [tagMatch, Bool.and_eq_true, beq_iff_eq] at this
      simpa using this.2

theorem tagGetOrCreate_fst_mem (db : DB) (u : Nat) (n : String) :
    (tagGetOrCreate db u n).1 ∈ (tagGetOrCreate db u n).2.tags := by
  unfold tagGetOrCreate
  cases hf : db.tags.find? (tagMatch u n) with
  | none => simp
  | some t => simpa using List.mem_of_find?_eq_some hf

theorem tagGetOrCreate_tags_ext (db : DB) (u : Nat) (n : String) :
    ∃ rest, (tagGetOrCreate db u n).2.tags = db.tags ++ rest ∧
      ∀ t ∈ rest, t.user = u ∧ t.name = n ∧
        db.tags.find? (tagMatch u n) = none := by
  unfold tagGetOrCreate
  cases hf : db.tags.find? (tagMatch u n) with
  | none => exact ⟨[⟨db.nextTagId, u, n⟩], by simp, by simp [hf]⟩
  | some t => exact ⟨[], by simp, by simp⟩

theorem tagGetOrCreate_ingredients (db : DB) (u : Nat) (n : String) :
    (tagGetOrCreate db u n).2.ingredients = db.ingredients := by
  unfold tagGetOrCreate
  cases hf : db.tags.find? (tagMatch u n) <;> simp

theorem tagGetOrCreate_recipes (db : DB) (u : Nat) (n : String) :
    (tagGetOrCreate db u n).2.recipes = db.recipes := by
  unfold tagGetOrCreate
  cases hf : db.tags.find? (tagMatch u n) <;> simp

theorem ingredientGetOrCreate_fst_user (db : DB) (u : Nat) (n : String) :
    (ingredientGetOrCreate db u n).1.user = u := by
  unfold ingredientGetOrCreate
  cases hf : db.ingredients.find? (ingredientMatch u n) with
  | none => simp
  | some i =>
      have := List.find?_some hf
      simp only [ingredientMatch, Bool.and_eq_true, beq_iff_eq] at this
      simpa using this.1

theorem ingredientGetOrCreate_fst_name (db : DB) (u : Nat) (n : String) :
    (ingredientGetOrCreate db u n).1.name = n := by
  unfold ingredientGetOrCreate
  cases hf : db.ingredients.find? (ingredientMatch u n) with
  | none => simp
  | some i =>
      have := List.find?_some hf
      simp only [ingredientMatch, Bool.and_eq_true, beq_iff_eq] at this
      simpa using this.2

theorem ingredientGetOrCreate_fst_mem (db : DB) (u : Nat) (n : String) :
    (ingredientGetOrCreate db u n).1 ∈ (ingredientGetOrCreate db u n).2.ingredients := by
  unfold ingredientGetOrCreate
  cases hf : db.ingredients.find? (ingredientMatch u n) with
  | none => simp
  | some i => simpa using List.mem_of_find?_eq_some hf

theorem ingredientGetOrCreate_ingredients_ext (db : DB) (u : Nat) (n : String) :
    ∃ rest, (ingredientGetOrCreate db u n).2.ingredients = db.ingredients ++ rest ∧
      ∀ i ∈ rest, i.user = u ∧ i.name = n := by
  unfold ingredientGetOrCreate
  cases hf : db.ingredients.find? (ingredientMatch u n) with
  | none => exact ⟨[⟨db.nextIngredientId, u, n⟩], by simp, by simp⟩
  | some i => exact ⟨[], by simp, by simp⟩

theorem ingredientGetOrCreate_tags (db : DB) (u : Nat) (n : String) :
    (ingredientGetOrCreate db u n).2.tags = db.tags := by
  unfold ingredientGetOrCreate
  cases hf : db.ingredients.find? (ingredientMatch u n) <;> simp

theorem ingredientGetOrCreate_recipes (db : DB) (u : Nat) (n : String) :
    (ingredientGetOrCreate db u n).2.recipes = db.recipes := by
  unfold ingredientGetOrCreate
  cases hf : db.ingredients.find? (ingredientMatch u n) <;> simp

theorem getOrCreateTags_nil (u : Nat) (acc : List Nat) (db : DB) :
    getOrCreateTags u [] acc db = (acc, db) := rfl

theorem getOrCreateTags_cons (u : Nat) (n : String) (ns : List String)
    (acc : List Nat) (db : DB) :
    getOrCreateTags u (n :: ns) acc db =
      getOrCreateTags u ns (m2mAdd acc (tagGetOrCreate db u n).1.id)
        (tagGetOrCreate db u n).2 := rfl

theorem getOrCreateIngredients_nil (u : Nat) (acc : List Nat) (db : DB) :
    getOrCreateIngredients u [] acc db = (acc, db) := rfl

theorem getOrCreateIngredients_cons (u : Nat) (n : String) (ns : List String)
    (acc : List Nat) (db : DB) :
    getOrCreateIngredients u (n :: ns) acc db =
      getOrCreateIngredients u ns (m2mAdd acc (ingredientGetOrCreate db u n).1.id)
        (ingredientGetOrCreate db u n).2 := rfl

theorem getOrCreateTags_tags_mono (u : Nat) (ns : List String) :
    ∀ acc db, ∀ t ∈ db.tags, t ∈ (getOrCreateTags u ns acc db).2.tags := by
  induction ns with
  | nil => intro acc db t ht; simpa [getOrCreateTags_nil] using ht
  | cons n ns ih =>
      intro acc db t ht
      rw [getOrCreateTags_cons]
      apply ih
      obtain ⟨rest, hext, -⟩ := tagGetOrCreate_tags_ext db u n
      rw [hext]
      exact List.mem_append_left _ ht

theorem getOrCreateTags_ingredients (u : Nat) (ns : List String) :
    ∀ acc db, (getOrCreateTags u ns acc db).2.ingredients = db.ingredients := by
  induction ns with
  | nil => intro acc db; simp [getOrCreateTags_nil]
  | cons n ns ih =>
      intro acc db
      rw [getOrCreateTags_cons, ih, tagGetOrCreate_ingredients]

theorem getOrCreateTags_recipes (u : Nat) (ns : List String) :
    ∀ acc db, (getOrCreateTags u ns acc db).2.recipes = db.recipes := by
  induction ns with
  | nil => intro acc db; simp [getOrCreateTags_nil]
  | cons n ns ih =>
      intro acc db
      rw [getOrCreateTags_cons, ih, tagGetOrCreate_recipes]

theorem getOrCreateIngredients_ingredients_mono (u : Nat) (ns : List String) :
    ∀ acc db, ∀ i ∈ db.ingredients,
      i ∈ (getOrCreateIngredients u ns acc db).2.ingredients := by
  induction ns with
  | nil => intro acc db i hi; simpa [getOrCreateIngredients_nil] using hi
  | cons n ns ih =>
      intro acc db i hi
      rw [getOrCreateIngredients_cons]
      apply ih
      obtain ⟨rest, hext, -⟩ := ingredientGetOrCreate_ingredients_ext db u n
      rw [hext]
      exact List.mem_append_left _ hi

theorem getOrCreateIngredients_tags (u : Nat) (ns : List String) :
    ∀ acc db, (getOrCreateIngredients u ns acc db).2.tags = db.tags := by
  induction ns with
  | nil => intro acc db; simp [getOrCreateIngredients_nil]
  | cons n ns ih =>
      intro acc db
      rw [getOrCreateIngredients_cons, ih, ingredientGetOrCreate_tags]

theorem getOrCreateIngredients_recipes (u : Nat) (ns : List String) :
    ∀ acc db, (getOrCreateIngredients u ns acc db).2.recipes = db.recipes := by
  induction ns with
  | nil => intro acc db; simp [getOrCreateIngredients_nil]
  | cons n ns ih =>
      intro acc db
      rw [getOrCreateIngredients_cons, ih, ingredientGetOrCreate_recipes]

theorem getOrCreateTags_acc_sub (u : Nat) (ns : List String) :
    ∀ acc db, ∀ x ∈ acc, x ∈ (getOrCreateTags u ns acc db).1 := by
  induction ns with
  | nil => intro acc db x hx; simpa [getOrCreateTags_nil] using hx
  | cons n ns ih =>
      intro acc db x hx
      rw [getOrCreateTags_cons]
      exact ih _ _ x (mem_m2mAdd_of_mem _ hx)

theorem getOrCreateIngredients_acc_sub (u : Nat) (ns : List String) :
    ∀ acc db, ∀ x ∈ acc, x ∈ (getOrCreateIngredients u ns acc db).1 := by
  induction ns with
  | nil => intro acc db x hx; simpa [getOrCreateIngredients_nil] using hx
  | cons n ns ih =>
      intro acc db x hx
      rw [getOrCreateIngredients_cons]
      exact ih _ _ x (mem_m2mAdd_of_mem _ hx)

theorem getOrCreateTags_covers (u : Nat) (ns : List String) :
    ∀ acc db, ∀ n ∈ ns, ∃ t ∈ (getOrCreateTags u ns acc db).2.tags,
      t.user = u ∧ t.name = n ∧ t.id ∈ (getOrCreateTags u ns acc db).1 := by
  induction ns with
  | nil => intro acc db n hn; simp at hn
  | cons m ms ih =>
      intro acc db n hn
      rw [getOrCreateTags_cons]
      rcases List.mem_cons.mp hn with h | h
      · subst h
        refine ⟨(tagGetOrCreate db u n).1, ?_, tagGetOrCreate_fst_user db u n,
          tagGetOrCreate_fst_name db u n, ?_⟩
        · exact getOrCreateTags_tags_mono u ms _ _ _ (tagGetOrCreate_fst_mem db u n)
        · exact getOrCreateTags_acc_sub u ms _ _ _
            (mem_m2mAdd_self acc (tagGetOrCreate db u n).1.id)
      · exact ih _ _ n h

theorem getOrCreateIngredients_covers (u : Nat) (ns : List String) :
    ∀ acc db, ∀ n ∈ ns, ∃ i ∈ (getOrCreateIngredients u ns acc db).2.ingredients,
      i.user = u ∧ i.name = n ∧ i.id ∈ (getOrCreateIngredients u ns acc db).1 := by
  induction ns with
  | nil => intro acc db n hn; simp at hn
  | cons m ms ih =>
      intro acc db n hn
      rw [getOrCreateIngredients_cons]
      rcases List.mem_cons.mp hn with h | h
      · subst h
        refine ⟨(ingredientGetOrCreate db u n).1, ?_,
          ingredientGetOrCreate_fst_user db u n,
          ingredientGetOrCreate_fst_name db u n, ?_⟩
        · exact getOrCreateIngredients_ingredients_mono u ms _ _ _
            (ingredientGetOrCreate_fst_mem db u n)
        · exact getOrCreateIngredients_acc_sub u ms _ _ _
            (mem_m2mAdd_self acc (ingredientGetOrCreate db u n).1.id)
      · exact ih _ _ n h

theorem getOrCreateTags_ids_spec (u : Nat) (ns : List String) :
    ∀ acc db, ∀ x ∈ (getOrCreateTags u ns acc db).1,
      x ∈ acc ∨ ∃ t ∈ (getOrCreateTags u ns acc db).2.tags,
        t.id = x ∧ t.user = u := by
  induction ns with
  | nil => intro acc db x hx; exact Or.inl (by simpa [getOrCreateTags_nil] using hx)
  | cons n ms ih =>
      intro acc db x hx
      rw [getOrCreateTags_cons] at hx ⊢
      rcases ih _ _ x hx with h | h
      · rcases mem_of_mem_m2mAdd h with h' | h'
        · exact Or.inl h'
        · refine Or.inr ⟨(tagGetOrCreate db u n).1, ?_, h'.symm,
            tagGetOrCreate_fst_user db u n⟩
          exact getOrCreateTags_tags_mono u ms _ _ _ (tagGetOrCreate_fst_mem db u n)
      · exact Or.inr h

theorem getOrCreateIngredients_ids_spec (u : Nat) (ns : List String) :
    ∀ acc db, ∀ x ∈ (getOrCreateIngredients u ns acc db).1,
      x ∈ acc ∨ ∃ i ∈ (getOrCreateIngredients u ns acc db).2.ingredients,
        i.id = x ∧ i.user = u := by
  induction ns with
  | nil =>
      intro acc db x hx
      exact Or.inl (by simpa [getOrCreateIngredients_nil] using hx)
  | cons n ms ih =>
      intro acc db x hx
      rw [getOrCreateIngredients_cons] at hx ⊢
      rcases ih _ _ x hx with h | h
      · rcases mem_of_mem_m2mAdd h with h' | h'
        · exact Or.inl h'
        · refine Or.inr ⟨(ingredientGetOrCreate db u n).1, ?_, h'.symm,
            ingredientGetOrCreate_fst_user db u n⟩
          exact getOrCreateIngredients_ingredients_mono u ms _ _ _
            (ingredientGetOrCreate_fst_mem db u n)
      · exact Or.inr h

theorem saveRecipe_tags (r : Recipe) (db : DB) :
    (saveRecipe r db).tags = db.tags := rfl

theorem saveRecipe_ingredients (r : Recipe) (db : DB) :
    (saveRecipe r db).ingredients = db.ingredients := rfl

theorem saveRecipe_recipes_mem {r : Recipe} {db : DB} {x : Recipe}
    (h : x ∈ (saveRecipe r db).recipes) : x = r ∨ x ∈ db.recipes := by
  unfold saveRecipe at h
  simp only [List.mem_map] at h
  obtain ⟨y, hy, hxy⟩ := h
  by_cases hid : y.id == r.id
  · simp [hid] at hxy; exact Or.inl hxy.symm
  · simp [hid] at hxy; exact Or.inr (hxy ▸ hy)

theorem update_fst_scalars (u : Nat) (r : Recipe) (p : RecipePayload) (db : DB) :
    (update u r p db).1.title = p.title.getD r.title ∧
    (update u r p db).1.time_minutes = p.time_minutes.getD r.time_minutes ∧
    (update u r p db).1.price = p.price.getD r.price ∧
    (update u r p db).1.link = p.link.getD r.link ∧
    (update u r p db).1.description = p.description.getD r.description ∧
    (update u r p db).1.id = r.id ∧
    (update u r p db).1.user = r.user := by
  cases hp : p.tags <;> cases hq : p.ingredients <;> simp [update, hp, hq]

/-- C1: when the tags field is present in the validated payload (even as
the empty list), the prior tag associations are discarded and the new list
is exactly the get-or-create results accumulated from the empty
association list; the recipe's identity, owner and scalar fields are
computed from the scalar payload alone, unaffected by the replacement; and
the ingredients field behaves independently in the same way. -/
theorem update_tags_present_replaces (u : Nat) (r : Recipe) (p : RecipePayload)
    (db : DB) (ns : List String) (h : p.tags = some ns) :
    (update u r p db).1.tags = (getOrCreateTags u ns [] db).1 ∧
    (update u r p db).1.id = r.id ∧
    (update u r p db).1.user = r.user ∧
    (update u r p db).1.title = p.title.getD r.title ∧
    (update u r p db).1.time_minutes = p.time_minutes.getD r.time_minutes ∧
    (update u r p db).1.price = p.price.getD r.price ∧
    (update u r p db).1.link = p.link.getD r.link ∧
    (update u r p db).1.description = p.description.getD r.description ∧
    (p.ingredients = none → (update u r p db).1.ingredients = r.ingredients) ∧
    (∀ ms, p.ingredients = some ms →
      (update u r p db).1.ingredients =
        (getOrCreateIngredients u ms [] (getOrCreateTags u ns [] db).2).1) := by
  cases hq : p.ingredients <;> simp [update, h, hq]

theorem update_tags_present_replaces_witness :
    (update 0 rSample pSample dbSample).1.tags =
      (getOrCreateTags 0 ["Lunch"] [] dbSample).1 ∧
    (update 0 rSample pSample dbSample).1.ingredients = rSample.ingredients :=
  ⟨(update_tags_present_replaces 0 rSample pSample dbSample ["Lunch"] rfl).1,
   (update_tags_present_replaces 0 rSample pSample dbSample ["Lunch"] rfl).2.2.2.2.2.2.2.2.1 rfl⟩

/-- C4: every scalar field present in the validated payload overwrites the
recipe attribute, and every scalar field absent from a partial-update
payload keeps its prior value. -/
theorem update_scalar_fields (u : Nat) (r : Recipe) (p : RecipePayload) (db : DB) :
    ((∀ v, p.title = some v → (update u r p db).1.title = v) ∧
      (p.title = none → (update u r p db).1.title = r.title)) ∧
    ((∀ v, p.time_minutes = some v → (update u r p db).1.time_minutes = v) ∧
      (p.time_minutes = none → (update u r p db).1.time_minutes = r.time_minutes)) ∧
    ((∀ v, p.price = some v → (update u r p db).1.price = v) ∧
      (p.price = none → (update u r p db).1.price = r.price)) ∧
    ((∀ v, p.link = some v → (update u r p db).1.link = v) ∧
      (p.link = none → (update u r p db).1.link = r.link)) ∧
    ((∀ v, p.description = some v → (update u r p db).1.description = v) ∧
      (p.description = none → (update u r p db).1.description = r.description)) := by
  obtain ⟨h1, h2, h3, h4, h5, -⟩ := update_fst_scalars u r p db
  refine ⟨⟨?_, ?_⟩, ⟨?_, ?_⟩, ⟨?_, ?_⟩, ⟨?_, ?_⟩, ⟨?_, ?_⟩⟩ <;>
    first
      | (intro v hv; simp [h1, h2, h3, h4, h5, hv])
      | (intro hv; simp [h1, h2, h3, h4, h5, hv])

theorem update_scalar_fields_witness :
    (update 0 rSample pScalar dbSample).1.title = "New recipe title" ∧
    (update 0 rSample pScalar dbSample).1.link = rSample.link :=
  ⟨(update_scalar_fields 0 rSample pScalar dbSample).1.1 "New recipe title" rfl,
   (update_scalar_fields 0 rSample pScalar dbSample).2.2.2.1.2 rfl⟩

/-- C8: an update whose payload carries neither the tags key nor the
ingredients key leaves both association lists of the recipe exactly as
they were. -/
theorem update_scalars_only_keeps_assocs (u : Nat) (r : Recipe)
    (p : RecipePayload) (db : DB) (ht : p.tags = none)
    (hi : p.ingredients = none) :
    (update u r p db).1.tags = r.tags ∧
    (update u r p db).1.ingredients = r.ingredients := by
  simp [update, ht, hi]

theorem update_scalars_only_keeps_assocs_witness :
    (update 0 rSample pScalar dbSample).1.tags = rSample.tags ∧
    (update 0 rSample pScalar dbSample).1.ingredients = rSample.ingredients :=
  update_scalars_only_keeps_assocs 0 rSample pScalar dbSample rfl rfl

theorem create_fst_tags (u : Nat) (p : RecipePayload) (db : DB) :
    (create u p db).1.tags =
      (getOrCreateTags u (p.tags.getD []) [] (createDB0 u p db)).1 := rfl

theorem create_fst_ingredients (u : Nat) (p : RecipePayload) (db : DB) :
    (create u p db).1.ingredients =
      (getOrCreateIngredients u (p.ingredients.getD []) []
        (getOrCreateTags u (p.tags.getD []) [] (createDB0 u p db)).2).1 := rfl

theorem create_fst_user (u : Nat) (p : RecipePayload) (db : DB) :
    (create u p db).1.user = u := rfl

theorem create_snd_tags (u : Nat) (p : RecipePayload) (db : DB) :
    (create u p db).2.tags =
      (getOrCreateTags u (p.tags.getD []) [] (createDB0 u p db)).2.tags := by
  simp [create, saveRecipe_tags, getOrCreateIngredients_tags]

theorem create_snd_ingredients (u : Nat) (p : RecipePayload) (db : DB) :
    (create u p db).2.ingredients =
      (getOrCreateIngredients u (p.ingredients.getD []) []
        (getOrCreateTags u (p.tags.getD []) [] (createDB0 u p db)).2).2.ingredients := by
  simp [create, saveRecipe_ingredients]

/-- C2: on create, every nested tag entry resolves, via user-scoped
get-or-create, to a row owned by the authenticated user bearing that name,
and that row's id is associated with the new recipe; the same holds for
every nested ingredient entry. -/
theorem create_resolves_each_entry (u : Nat) (p : RecipePayload) (db : DB) :
    (∀ n ∈ p.tags.getD [], ∃ t ∈ (create u p db).2.tags,
      t.user = u ∧ t.name = n ∧ t.id ∈ (create u p db).1.tags) ∧
    (∀ n ∈ p.ingredients.getD [], ∃ i ∈ (create u p db).2.ingredients,
      i.user = u ∧ i.name = n ∧ i.id ∈ (create u p db).1.ingredients) := by
  constructor
  · intro n hn
    obtain ⟨t, htm, hu, hnm, hid⟩ :=
      getOrCreateTags_covers u (p.tags.getD []) [] (createDB0 u p db) n hn
    refine ⟨t, ?_, hu, hnm, ?_⟩
    · rw [create_snd_tags]; exact htm
    · rw [create_fst_tags]; exact hid
  · intro n hn
    obtain ⟨i, him, hu, hnm, hid⟩ :=
      getOrCreateIngredients_covers u (p.ingredients.getD []) []
        (getOrCreateTags u (p.tags.getD []) [] (createDB0 u p db)).2 n hn
    refine ⟨i, ?_, hu, hnm, ?_⟩
    · rw [create_snd_ingredients]; exact him
    · rw [create_fst_ingredients]; exact hid

theorem create_resolves_each_entry_witness :
    ∃ t ∈ (create 0 pNested dbSample).2.tags,
      t.user = 0 ∧ t.name = "Thai" ∧ t.id ∈ (create 0 pNested dbSample).1.tags :=
  (create_resolves_each_entry 0 pNested dbSample).1 "Thai" (by decide)

/-- C5: the `user` key of a raw payload is dropped by validation, so the
validated data is independent of it; after an update the owner is the
pre-existing owner, after a create it is the authenticated request user,
and in neither case does the operation fail. -/
theorem user_field_never_settable (u : Nat) (r : Recipe)
    (raw : RawRecipePayload) (db : DB) (v : Option Nat) :
    toValidated { raw with user := v } = toValidated raw ∧
    (update u r (toValidated raw) db).1.user = r.user ∧
    (create u (toValidated raw) db).1.user = u := by
  exact ⟨rfl, (update_fst_scalars u r (toValidated raw) db).2.2.2.2.2.2, rfl⟩

theorem update_snd_tags_mono (u : Nat) (r : Recipe) (p : RecipePayload)
    (db : DB) : ∀ t ∈ db.tags, t ∈ (update u r p db).2.tags := by
  intro t ht
  cases hp : p.tags <;> cases hq : p.ingredients <;>
    simp [update, hp, hq, saveRecipe, getOrCreateIngredients_tags] <;>
    first
      | exact ht
      | exact getOrCreateTags_tags_mono u _ _ _ t ht

theorem update_snd_ingredients_mono (u : Nat) (r : Recipe) (p : RecipePayload)
    (db : DB) : ∀ i ∈ db.ingredients, i ∈ (update u r p db).2.ingredients := by
  intro i hi
  cases hp : p.tags <;> cases hq : p.ingredients <;>
    simp [update, hp, hq, saveRecipe, getOrCreateTags_ingredients] <;>
    first
      | exact hi
      | exact getOrCreateIngredients_ingredients_mono u _ _ _ i
          (by rw [getOrCreateTags_ingredients]; exact hi)
      | exact getOrCreateIngredients_ingredients_mono u _ _ _ i hi

theorem create_snd_tags_mono (u : Nat) (p : RecipePayload) (db : DB) :
    ∀ t ∈ db.tags, t ∈ (create u p db).2.tags := by
  intro t ht
  rw [create_snd_tags]
  exact getOrCreateTags_tags_mono u _ _ _ t ht

theorem create_snd_ingredients_mono (u : Nat) (p : RecipePayload) (db : DB) :
    ∀ i ∈ db.ingredients, i ∈ (create u p db).2.ingredients := by
  intro i hi
  rw [create_snd_ingredients]
  apply getOrCreateIngredients_ingredients_mono
  rw [getOrCreateTags_ingredients]
  exact hi

/-- C10: no recipe operation deletes `Tag` or `Ingredient` rows: an
update or create only extends the two tables, and destroy / retrieve
leave them exactly as they are (clearing or replacing associations only
rewrites the id lists on the recipe row). -/
theorem rows_never_deleted (u : Nat) (r : Recipe) (p : RecipePayload)
    (db : DB) (rid : Nat) :
    (∀ t ∈ db.tags, t ∈ (update u r p db).2.tags) ∧
    (∀ i ∈ db.ingredients, i ∈ (update u r p db).2.ingredients) ∧
    (∀ t ∈ db.tags, t ∈ (create u p db).2.tags) ∧
    (∀ i ∈ db.ingredients, i ∈ (create u p db).2.ingredients) ∧
    (destroyRecipe u rid db).2.tags = db.tags ∧
    (destroyRecipe u rid db).2.ingredients = db.ingredients ∧
    (retrieveRecipe u rid db).2 = db := by
  refine ⟨update_snd_tags_mono u r p db, update_snd_ingredients_mono u r p db,
    create_snd_tags_mono u p db, create_snd_ingredients_mono u p db, ?_, ?_, rfl⟩ <;>
  · cases h : get_object db u rid <;> simp [destroyRecipe, h]

theorem rows_never_deleted_witness :
    (⟨0, 0, "Breakfast"⟩ : Tag) ∈ (update 0 rSample pSample dbRows).2.tags ∧
    (⟨0, 0, "Salt"⟩ : Ingredient) ∈ (create 0 pNested dbRows).2.ingredients :=
  ⟨(rows_never_deleted 0 rSample pSample dbRows 1).1 _ (by decide),
   (rows_never_deleted 0 rSample pNested dbRows 1).2.2.2.1 _ (by decide)⟩

/-- C9: an authenticated user targeting another user's recipe by id gets
the not-found outcome from retrieve, update and delete, and the database
— in particular the targeted recipe row — is left entirely unchanged. -/
theorem other_users_recipe_not_found (u rid : Nat) (r : Recipe)
    (p : RecipePayload) (db : DB) (hmem : r ∈ db.recipes) (hid : r.id = rid)
    (hne : r.user ≠ u) (huniq : ∀ x ∈ db.recipes, x.id = rid → x = r) :
    get_object db u rid = none ∧
    retrieveRecipe u rid db = (none, db) ∧
    destroyRecipe u rid db = (false, db) ∧
    updateRecipe u rid p db = (false, db) := by
  have hnone : get_object db u rid = none := by
    unfold get_object
    apply List.find?_eq_none.mpr
    intro x hx
    obtain ⟨hxm, hxu⟩ := List.mem_filter.mp hx
    simp only [beq_iff_eq] at hxu ⊢
    intro hxid
    have hxr : x = r := huniq x hxm hxid
    exact hne (by rw [← hxr, hxu])
  refine ⟨hnone, ?_, ?_, ?_⟩
  · simp [retrieveRecipe, hnone]
  · simp [destroyRecipe, hnone]
  · simp [updateRecipe, hnone]

theorem other_users_recipe_not_found_witness :
    destroyRecipe 0 3 dbOther = (false, dbOther) :=
  (other_users_recipe_not_found 0 3 rOther pSample dbOther (by decide) rfl
    (by decide) (by decide)).2.2.1

theorem update_fst_tags_of_some (u : Nat) (r : Recipe) (p : RecipePayload)
    (db : DB) (ns : List String) (hp : p.tags = some ns) :
    (update u r p db).1.tags = (getOrCreateTags u ns [] db).1 := by
  cases hq : p.ingredients <;> simp [update, hp, hq]

theorem update_snd_tags_of_some (u : Nat) (r : Recipe) (p : RecipePayload)
    (db : DB) (ns : List String) (hp : p.tags = some ns) :
    (update u r p db).2.tags = (getOrCreateTags u ns [] db).2.tags := by
  cases hq : p.ingredients <;>
    simp [update, hp, hq, saveRecipe, getOrCreateIngredients_tags]

theorem update_fst_tags_of_none (u : Nat) (r : Recipe) (p : RecipePayload)
    (db : DB) (hp : p.tags = none) :
    (update u r p db).1.tags = r.tags := by
  cases hq : p.ingredients <;> simp [update, hp, hq]

theorem update_fst_ingredients_of_none (u : Nat) (r : Recipe)
    (p : RecipePayload) (db : DB) (hq : p.ingredients = none) :
    (update u r p db).1.ingredients = r.ingredients := by
  cases hp : p.tags <;> simp [update, hp, hq]

theorem update_ingredients_of_some (u : Nat) (r : Recipe) (p : RecipePayload)
    (db : DB) (ms : List String) (hq : p.ingredients = some ms) :
    ∃ base, (update u r p db).1.ingredients = (getOrCreateIngredients u ms [] base).1 ∧
      (update u r p db).2.ingredients =
        (getOrCreateIngredients u ms [] base).2.ingredients := by
  cases hp : p.tags with
  | none => exact ⟨db, by simp [update, hp, hq], by simp [update, hp, hq, saveRecipe]⟩
  | some ns =>
      exact ⟨(getOrCreateTags u ns [] db).2, by simp [update, hp, hq],
        by simp [update, hp, hq, saveRecipe]⟩

theorem update_fst_tags_spec (u : Nat) (r : Recipe) (p : RecipePayload)
    (db : DB) : ∀ x ∈ (update u r p db).1.tags,
      x ∈ r.tags ∨ ∃ t ∈ (update u r p db).2.tags, t.id = x ∧ t.user = u := by
  intro x hx
  cases hp : p.tags with
  | none =>
      left
      rwa [update_fst_tags_of_none u r p db hp] at hx
  | some ns =>
      right
      rw [update_fst_tags_of_some u r p db ns hp] at hx
      rcases getOrCreateTags_ids_spec u ns [] db x hx with h | ⟨t, ht, hid, hu⟩
      · simp at h
      · refine ⟨t, ?_, hid, hu⟩
        rw [update_snd_tags_of_some u r p db ns hp]
        exact ht

theorem update_fst_ingredients_spec (u : Nat) (r : Recipe) (p : RecipePayload)
    (db : DB) : ∀ x ∈ (update u r p db).1.ingredients,
      x ∈ r.ingredients ∨
        ∃ i ∈ (update u r p db).2.ingredients, i.id = x ∧ i.user = u := by
  intro x hx
  cases hq : p.ingredients with
  | none =>
      left
      rwa [update_fst_ingredients_of_none u r p db hq] at hx
  | some ms =>
      right
      obtain ⟨base, h1, h2⟩ := update_ingredients_of_some u r p db ms hq
      rw [h1] at hx
      rcases getOrCreateIngredients_ids_spec u ms [] base x hx with h | ⟨i, hi, hid, hu⟩
      · simp at h
      · exact ⟨i, by rw [h2]; exact hi, hid, hu⟩

theorem update_snd_recipes_eq (u : Nat) (r : Recipe) (p : RecipePayload)
    (db : DB) : (update u r p db).2.recipes =
      db.recipes.map (fun x =>
        if x.id == (update u r p db).1.id then (update u r p db).1 else x) := by
  cases hp : p.tags <;> cases hq : p.ingredients <;>
    simp [update, hp, hq, saveRecipe, getOrCreateTags_recipes,
      getOrCreateIngredients_recipes]

theorem update_snd_recipes_mem (u : Nat) (r : Recipe) (p : RecipePayload)
    (db : DB) : ∀ x ∈ (update u r p db).2.recipes,
      x = (update u r p db).1 ∨ x ∈ db.recipes := by
  intro x hx
  rw [update_snd_recipes_eq] at hx
  simp only [List.mem_map] at hx
  obtain ⟨y, hy, hxy⟩ := hx
  by_cases hid : y.id == (update u r p db).1.id
  · simp [hid] at hxy; exact Or.inl hxy.symm
  · simp [hid] at hxy; exact Or.inr (hxy ▸ hy)

theorem create_snd_recipes_eq (u : Nat) (p : RecipePayload) (db : DB) :
    (create u p db).2.recipes =
      (db.recipes ++ [createdRecipe u p db]).map (fun x =>
        if x.id == (create u p db).1.id then (create u p db).1 else x) := by
  simp [create, createDB0, saveRecipe, getOrCreateTags_recipes,
    getOrCreateIngredients_recipes]

theorem create_snd_recipes_mem (u : Nat) (p : RecipePayload) (db : DB) :
    ∀ x ∈ (create u p db).2.recipes,
      x = (create u p db).1 ∨ x ∈ db.recipes ∨ x = createdRecipe u p db := by
  intro x hx
  rw [create_snd_recipes_eq] at hx
  simp only [List.mem_map] at hx
  obtain ⟨y, hy, hxy⟩ := hx
  by_cases hid : y.id == (create u p db).1.id
  · simp [hid] at hxy; exact Or.inl hxy.symm
  · simp [hid] at hxy
    rcases List.mem_append.mp hy with h | h
    · exact Or.inr (Or.inl (hxy ▸ h))
    · simp at h
      exact Or.inr (Or.inr (hxy ▸ h))

/-- C3: create and update preserve the ownership invariant, and the
recipe produced by the operation only references tag / ingredient rows
owned by the user who issued the request (for an update, the instance is
the requester's own recipe, as the user-scoped lookup guarantees). -/
theorem create_update_owner_invariant (u : Nat) (r : Recipe)
    (p : RecipePayload) (db : DB) (hinv : dbInv db) (hmem : r ∈ db.recipes)
    (hown : r.user = u) :
    dbInv (create u p db).2 ∧
    ownedAssoc (create u p db).2 (create u p db).1 ∧
    dbInv (update u r p db).2 ∧
    ownedAssoc (update u r p db).2 (update u r p db).1 := by
  have huser : (update u r p db).1.user = r.user :=
    (update_fst_scalars u r p db).2.2.2.2.2.2
  have hCreateAssoc : ownedAssoc (create u p db).2 (create u p db).1 := by
    constructor
    · intro x hx
      rw [create_fst_tags] at hx
      rcases getOrCreateTags_ids_spec u _ _ _ x hx with h | ⟨t, ht, hid, hu⟩
      · simp at h
      · refine ⟨t, ?_, hid, ?_⟩
        · rw [create_snd_tags]; exact ht
        · rw [create_fst_user]; exact hu
    · intro x hx
      rw [create_fst_ingredients] at hx
      rcases getOrCreateIngredients_ids_spec u _ _ _ x hx with h | ⟨i, hi, hid, hu⟩
      · simp at h
      · refine ⟨i, ?_, hid, ?_⟩
        · rw [create_snd_ingredients]; exact hi
        · rw [create_fst_user]; exact hu
  have hUpdateAssoc : ownedAssoc (update u r p db).2 (update u r p db).1 := by
    constructor
    · intro x hx
      rcases update_fst_tags_spec u r p db x hx with h | ⟨t, ht, hid, hu⟩
      · obtain ⟨t, htl, hid, htu⟩ := (hinv r hmem).1 x h
        exact ⟨t, update_snd_tags_mono u r p db t htl, hid, by rw [huser]; exact htu⟩
      · exact ⟨t, ht, hid, by rw [huser, hown]; exact hu⟩
    · intro x hx
      rcases update_fst_ingredients_spec u r p db x hx with h | ⟨i, hi, hid, hu⟩
      · obtain ⟨i, hil, hid, hiu⟩ := (hinv r hmem).2 x h
        exact ⟨i, update_snd_ingredients_mono u r p db i hil, hid,
          by rw [huser]; exact hiu⟩
      · exact ⟨i, hi, hid, by rw [huser, hown]; exact hu⟩
  refine ⟨?_, hCreateAssoc, ?_, hUpdateAssoc⟩
  · intro x hxmem
    rcases create_snd_recipes_mem u p db x hxmem with h | h | h
    · exact h ▸ hCreateAssoc
    · obtain ⟨h1, h2⟩ := hinv x h
      constructor
      · intro y hy
        obtain ⟨t, htl, hid, htu⟩ := h1 y hy
        exact ⟨t, create_snd_tags_mono u p db t htl, hid, htu⟩
      · intro y hy
        obtain ⟨i, hil, hid, hiu⟩ := h2 y hy
        exact ⟨i, create_snd_ingredients_mono u p db i hil, hid, hiu⟩
    · constructor
      · intro y hy; rw [h] at hy; simp [createdRecipe] at hy
      · intro y hy; rw [h] at hy; simp [createdRecipe] at hy
  · intro x hxmem
    rcases update_snd_recipes_mem u r p db x hxmem with h | h
    · exact h ▸ hUpdateAssoc
    · obtain ⟨h1, h2⟩ := hinv x h
      constructor
      · intro y hy
        obtain ⟨t, htl, hid, htu⟩ := h1 y hy
        exact ⟨t, update_snd_tags_mono u r p db t htl, hid, htu⟩
      · intro y hy
        obtain ⟨i, hil, hid, hiu⟩ := h2 y hy
        exact ⟨i, update_snd_ingredients_mono u r p db i hil, hid, hiu⟩

theorem create_update_owner_invariant_witness :
    dbInv (update 0 rSample pSample dbRows).2 :=
  (create_update_owner_invariant 0 rSample pSample dbRows
    (by decide) (by decide) rfl).2.2.1

theorem find?_append_some {α : Type} (p : α → Bool) {l : List α} {a : α}
    (l' : List α) (h : l.find? p = some a) : (l ++ l').find? p = some a := by
  rw [List.find?_append, h]; rfl

theorem getOrCreateTags_fresh (u : Nat) (ns : List String) :
    ∀ acc db, ns.Nodup →
      (∀ n ∈ ns, db.tags.find? (tagMatch u n) = none) →
      (getOrCreateTags u ns acc db).2.tags.length = db.tags.length + ns.length ∧
      ∀ t ∈ (getOrCreateTags u ns acc db).2.tags,
        t ∈ db.tags ∨
          (t.user = u ∧ t.name ∈ ns ∧ t.id ∈ (getOrCreateTags u ns acc db).1) := by
  induction ns with
  | nil =>
      intro acc db _ _
      refine ⟨by simp [getOrCreateTags_nil], ?_⟩
      intro t ht
      exact Or.inl (by simpa [getOrCreateTags_nil] using ht)
  | cons n ms ih =>
      intro acc db hnd hfresh
      have hn : db.tags.find? (tagMatch u n) = none :=
        hfresh n (List.mem_cons_self n ms)
      have hstep : tagGetOrCreate db u n =
          (⟨db.nextTagId, u, n⟩,
           { db with tags := db.tags ++ [⟨db.nextTagId, u, n⟩],
                     nextTagId := db.nextTagId + 1 }) := by
        simp [tagGetOrCreate, hn]
      rw [getOrCreateTags_cons, hstep]
      have hfresh1 : ∀ m ∈ ms,
          ({ db with tags := db.tags ++ [⟨db.nextTagId, u, n⟩],
                     nextTagId := db.nextTagId + 1 } : DB).tags.find?
            (tagMatch u m) = none := by
        intro m hm
        have hne : m ≠ n := by
          intro h
          exact (List.nodup_cons.mp hnd).1 (h ▸ hm)
        show (db.tags ++ [(⟨db.nextTagId, u, n⟩ : Tag)]).find? (tagMatch u m) = none
        rw [List.find?_append, hfresh m (List.mem_cons_of_mem n hm)]
        simp [tagMatch]
        exact fun h => absurd h.symm hne
      obtain ⟨hlen, hmem⟩ := ih (m2mAdd acc db.nextTagId)
        { db with tags := db.tags ++ [⟨db.nextTagId, u, n⟩],
                  nextTagId := db.nextTagId + 1 }
        (List.nodup_cons.mp hnd).2 hfresh1
      constructor
      · rw [hlen]; simp; omega
      · intro t ht
        rcases hmem t ht with h | ⟨hu, hnm, hid⟩
        · rcases List.mem_append.mp h with h' | h'
          · exact Or.inl h'
          · simp only [List.mem_singleton] at h'
            subst h'
            refine Or.inr ⟨rfl, by simp, ?_⟩
            exact getOrCreateTags_acc_sub u ms _ _ _
              (mem_m2mAdd_self acc db.nextTagId)
        · exact Or.inr ⟨hu, List.mem_cons_of_mem n hnm, hid⟩

/-- C6 counterexample: with the duplicated fresh name list `["A", "A"]`
(no name exists for the user beforehand), the create adds one new `Tag`
row, not two — one row fewer than the number of names in the list, so the
claim as stated fails at this input. -/
theorem create_fresh_tags_count_counterexample :
    (∀ n ∈ pDupTags.tags.getD [], ∀ t ∈ dbEmpty.tags,
      ¬(t.user = 0 ∧ t.name = n)) ∧
    (pDupTags.tags.getD []).length = 2 ∧
    (create 0 pDupTags dbEmpty).2.tags.length = dbEmpty.tags.length + 1 ∧
    ¬((create 0 pDupTags dbEmpty).2.tags.length = dbEmpty.tags.length + 2) := by
  decide

/-- C6 (amended with pairwise-distinct names, which the duplicated-name
counterexample forces): a create whose tag list consists of pairwise
distinct names, none of which exists for the creating user, adds exactly
one new `Tag` row per name; every row of the resulting table beyond the
old ones is owned by the creating user, bears one of the names and is
associated with the new recipe; and every name of the list is realised by
an associated row owned by the creating user. -/
theorem create_fresh_distinct_tags (u : Nat) (p : RecipePayload) (db : DB)
    (ns : List String) (hp : p.tags = some ns) (hnd : ns.Nodup)
    (hfresh : ∀ n ∈ ns, ∀ t ∈ db.tags, ¬(t.user = u ∧ t.name = n)) :
    (create u p db).2.tags.length = db.tags.length + ns.length ∧
    (∀ t ∈ (create u p db).2.tags,
      t ∈ db.tags ∨
        (t.user = u ∧ t.name ∈ ns ∧ t.id ∈ (create u p db).1.tags)) ∧
    (∀ n ∈ ns, ∃ t ∈ (create u p db).2.tags,
      t.user = u ∧ t.name = n ∧ t.id ∈ (create u p db).1.tags) := by
  have hgd : p.tags.getD [] = ns := by rw [hp]; rfl
  have hfresh' : ∀ n ∈ ns,
      (createDB0 u p db).tags.find? (tagMatch u n) = none := by
    intro n hn
    apply List.find?_eq_none.mpr
    intro t ht
    simp only [tagMatch, Bool.and_eq_true, beq_iff_eq, not_and]
    intro h1 h2
    exact hfresh n hn t ht ⟨h1, h2⟩
  obtain ⟨hlen, hmem⟩ :=
    getOrCreateTags_fresh u ns [] (createDB0 u p db) hnd hfresh'
  refine ⟨?_, ?_, ?_⟩
  · rw [create_snd_tags, hgd, hlen]; rfl
  · intro t ht
    rw [create_snd_tags, hgd] at ht
    rcases hmem t ht with h | ⟨h1, h2, h3⟩
    · exact Or.inl h
    · exact Or.inr ⟨h1, h2, by rw [create_fst_tags, hgd]; exact h3⟩
  · intro n hn
    obtain ⟨t, ht, h1, h2, h3⟩ :=
      getOrCreateTags_covers u ns [] (createDB0 u p db) n hn
    refine ⟨t, ?_, h1, h2, ?_⟩
    · rw [create_snd_tags, hgd]; exact ht
    · rw [create_fst_tags, hgd]; exact h3

theorem create_fresh_distinct_tags_witness :
    (create 0 pTwoTags dbEmpty).2.tags.length = dbEmpty.tags.length + 2 :=
  (create_fresh_distinct_tags 0 pTwoTags dbEmpty ["Thai", "Dinner"] rfl
    (by decide) (by decide)).1

theorem getOrCreateTags_tags_ext (u : Nat) (ns : List String) :
    ∀ acc db, ∃ rest, (getOrCreateTags u ns acc db).2.tags = db.tags ++ rest ∧
      ∀ t ∈ rest, t.user = u ∧ t.name ∈ ns ∧
        db.tags.find? (tagMatch u t.name) = none := by
  induction ns with
  | nil =>
      intro acc db
      exact ⟨[], by simp [getOrCreateTags_nil], by simp⟩
  | cons n ms ih =>
      intro acc db
      rw [getOrCreateTags_cons]
      obtain ⟨rest0, hext0, hrest0⟩ := tagGetOrCreate_tags_ext db u n
      obtain ⟨rest1, hext1, hrest1⟩ :=
        ih (m2mAdd acc (tagGetOrCreate db u n).1.id) (tagGetOrCreate db u n).2
      refine ⟨rest0 ++ rest1, by rw [hext1, hext0, List.append_assoc], ?_⟩
      intro t ht
      rcases List.mem_append.mp ht with h | h
      · obtain ⟨h1, h2, h3⟩ := hrest0 t h
        exact ⟨h1, by rw [h2]; exact List.mem_cons_self n ms, by rw [h2]; exact h3⟩
      · obtain ⟨h1, h2, h3⟩ := hrest1 t h
        refine ⟨h1, List.mem_cons_of_mem n h2, ?_⟩
        rw [hext0] at h3
        apply List.find?_eq_none.mpr
        intro x hx
        exact List.find?_eq_none.mp h3 x (List.mem_append_left _ hx)

theorem getOrCreateTags_existing (u : Nat) (ns : List String) :
    ∀ acc db n t, n ∈ ns → db.tags.find? (tagMatch u n) = some t →
      t.id ∈ (getOrCreateTags u ns acc db).1 := by
  induction ns with
  | nil => intro acc db n t hn; simp at hn
  | cons m ms ih =>
      intro acc db n t hn hf
      rw [getOrCreateTags_cons]
      by_cases hmn : m = n
      · subst hmn
        have hstep : tagGetOrCreate db u m = (t, db) := by
          simp [tagGetOrCreate, hf]
        rw [hstep]
        exact getOrCreateTags_acc_sub u ms _ db t.id (mem_m2mAdd_self acc t.id)
      · rcases List.mem_cons.mp hn with h | h
        · exact absurd h.symm hmn
        · obtain ⟨rest, hext, -⟩ := tagGetOrCreate_tags_ext db u m
          have hf1 : (tagGetOrCreate db u m).2.tags.find? (tagMatch u n) = some t := by
            rw [hext]; exact find?_append_some _ _ hf
          exact ih _ _ n t h hf1

theorem getOrCreateTags_missing (u : Nat) (ns : List String) :
    ∀ acc db n, n ∈ ns → db.tags.find? (tagMatch u n) = none →
      ∃ t ∈ (getOrCreateTags u ns acc db).2.tags, t ∉ db.tags ∧
        t.user = u ∧ t.name = n ∧ t.id ∈ (getOrCreateTags u ns acc db).1 := by
  induction ns with
  | nil => intro acc db n hn; simp at hn
  | cons m ms ih =>
      intro acc db n hn hf
      rw [getOrCreateTags_cons]
      by_cases hmn : m = n
      · subst hmn
        have hstep : tagGetOrCreate db u m =
            ((⟨db.nextTagId, u, m⟩ : Tag),
             { db with tags := db.tags ++ [(⟨db.nextTagId, u, m⟩ : Tag)],
                       nextTagId := db.nextTagId + 1 }) := by
          simp [tagGetOrCreate, hf]
        rw [hstep]
        refine ⟨⟨db.nextTagId, u, m⟩, ?_, ?_, rfl, rfl, ?_⟩
        · apply getOrCreateTags_tags_mono
          simp
        · intro hmem
          have := List.find?_eq_none.mp hf _ hmem
          simp [tagMatch] at this
        · exact getOrCreateTags_acc_sub u ms _ _ _
            (mem_m2mAdd_self acc db.nextTagId)
      · rcases List.mem_cons.mp hn with h | h
        · exact absurd h.symm hmn
        · obtain ⟨rest0, hext0, hrest0⟩ := tagGetOrCreate_tags_ext db u m
          have hf1 : (tagGetOrCreate db u m).2.tags.find? (tagMatch u n) = none := by
            rw [hext0]
            apply List.find?_eq_none.mpr
            intro x hx
            rcases List.mem_append.mp hx with hx' | hx'
            · exact List.find?_eq_none.mp hf x hx'
            · obtain ⟨-, hnm2, -⟩ := hrest0 x hx'
              simp only [tagMatch, Bool.and_eq_true, beq_iff_eq]
              intro hcon
              exact hmn (by rw [← hnm2]; exact hcon.2)
          obtain ⟨t, ht, hnotin, h1, h2, h3⟩ := ih _ _ n h hf1
          refine ⟨t, ht, ?_, h1, h2, h3⟩
          intro hmem
          exact hnotin (by rw [hext0]; exact List.mem_append_left _ hmem)

/-- C7: on create, each tag name that already has a row for the user
resolves to that very row — its id is associated with the new recipe and
the number of rows for that user-name pair is unchanged — while a name
with no such row gets exactly a genuinely new row, owned by the user and
associated with the recipe. -/
theorem create_existing_and_new_tags (u : Nat) (p : RecipePayload) (db : DB)
    (ns : List String) (hp : p.tags = some ns) :
    ∀ n ∈ ns,
      (∀ t, db.tags.find? (tagMatch u n) = some t →
        t.id ∈ (create u p db).1.tags ∧
        (create u p db).2.tags.countP (tagMatch u n) =
          db.tags.countP (tagMatch u n)) ∧
      (db.tags.find? (tagMatch u n) = none →
        ∃ t ∈ (create u p db).2.tags, t ∉ db.tags ∧ t.user = u ∧ t.name = n ∧
          t.id ∈ (create u p db).1.tags) := by
  have hgd : p.tags.getD [] = ns := by rw [hp]; rfl
  intro n hn
  constructor
  · intro t hf
    have hf' : (createDB0 u p db).tags.find? (tagMatch u n) = some t := hf
    constructor
    · rw [create_fst_tags, hgd]
      exact getOrCreateTags_existing u ns [] (createDB0 u p db) n t hn hf'
    · rw [create_snd_tags, hgd]
      obtain ⟨rest, hext, hrest⟩ :=
        getOrCreateTags_tags_ext u ns [] (createDB0 u p db)
      rw [hext, List.countP_append]
      have hzero : rest.countP (tagMatch u n) = 0 := by
        apply List.countP_eq_zero.mpr
        intro x hx
        obtain ⟨hxu, hxn, hxf⟩ := hrest x hx
        simp only [tagMatch, Bool.and_eq_true, beq_iff_eq]
        intro hcon
        rw [hcon.2] at hxf
        rw [hxf] at hf'
        exact Option.noConfusion hf'
      rw [hzero]
      simp [createDB0]
  · intro hf
    have hf' : (createDB0 u p db).tags.find? (tagMatch u n) = none := hf
    obtain ⟨t, ht, hnotin, h1, h2, h3⟩ :=
      getOrCreateTags_missing u ns [] (createDB0 u p db) n hn hf'
    refine ⟨t, ?_, hnotin, h1, h2, ?_⟩
    · rw [create_snd_tags, hgd]; exact ht
    · rw [create_fst_tags, hgd]; exact h3

theorem create_existing_and_new_tags_witness :
    (⟨0, 0, "Indian"⟩ : Tag).id ∈ (create 0 pMixTags dbIndian).1.tags ∧
    (create 0 pMixTags dbIndian).2.tags.countP (tagMatch 0 "Indian") =
      dbIndian.tags.countP (tagMatch 0 "Indian") :=
  (create_existing_and_new_tags 0 pMixTags dbIndian ["Indian", "Breakfast"]
    rfl "Indian" (by decide)).1 ⟨0, 0, "Indian"⟩ (by decide)
